import Mathlib

/-!
Verification of the fun-task execution engine (src/index.js).

The library runs a lazily-built Task tree through a pair of settlement guards
(`safeRun`, lines 30-68, and `safeRun2`, lines 74-104) that enforce
at-most-once settlement, sever handler references once an execution instance
closes, and normalize the cancellation contract.  We embed the engine
shallowly: each mutable-closure construct becomes an explicit state machine
whose inputs are the calls the wrapped computation (and the user, via the
returned cancellation handle) can make, and whose outputs are the observable
calls out of the guard (user handler invocations and invocations of the
computation-supplied cancel/close operations).

The embedding is split by construct:
* `safeRunModel` / `safeRun2Model` — the two settlement guards;
* `allStep` / `allRun` — `All._run` (lines 282-300) with its inner counting
  handlers, inlined with the `safeRun` guard it is built on;
* `raceStep` / `raceRun` — `Race._run` (lines 313-319);
* `chainStep` / `chainRun` — `Chain._run` (lines 374-393);
* `normalizeHandlers`, `defaultFailureHandler`, `mapChildHandlers`,
  `mapRejectedChildHandlers`, `chainOnFirstSuccess` — the handler
  normalization of `Task.run` (lines 188-193), the default failure handler
  (lines 17-23) and the handler records `Map._run` / `MapRejected._run`
  (lines 334-341, 354-361) pass to their child task.
-/

/-- A settlement call a computation can make synchronously, while the guard's
body is still executing (the cancellation handle does not exist yet):
`succeed`/`fail` are the two wrapped callbacks of both guards, `defect` is the
third wrapped callback of `safeRun2` (line 95), which exists only when the
handler set carries a `catch` handler. -/
inductive SyncEvent (S F D : Type) where
  | succeed (x : S)
  | fail (e : F)
  | defect (e : D)
deriving DecidableEq

/-- An event after the guard's body has returned: the computation settling
asynchronously through one of the wrapped callbacks, or the user invoking the
cancellation handle returned by the guard. -/
inductive PostEvent (S F D : Type) where
  | succeed (x : S)
  | fail (e : F)
  | defect (e : D)
  | cancel
deriving DecidableEq

/-- An observable call out of a settlement guard: a user handler invocation
(`success`/`failure`/`caught`), or an invocation of the computation-supplied
`onCancel` (resp. `cancel`) or `onClose` operation. -/
inductive GuardEff (S F D : Type) where
  | success (x : S)
  | failure (e : F)
  | caught (e : D)
  | onCancel
  | onClose
deriving DecidableEq

/-- Whether a guard effect is a settlement delivered to the user's
success/failure handlers. -/
def isSettleEff : GuardEff S F D → Bool
  | .success _ => true
  | .failure _ => true
  | _ => false

/-- The settlements (success/failure handler invocations) contained in an
effect trace. -/
def guardSettles (l : List (GuardEff S F D)) : List (GuardEff S F D) :=
  l.filter isSettleEff

/-- Whether a guard effect is an `onClose` invocation. -/
def isOnCloseEff : GuardEff S F D → Bool
  | .onClose => true
  | _ => false

/-- Number of `onClose` invocations in an effect trace. -/
def countOnClose (l : List (GuardEff S F D)) : Nat :=
  (l.filter isOnCloseEff).length

/-- Run a step function over a list of events, threading the state and
concatenating the emitted effects. -/
def procList {σ ε α : Type} (step : σ → α → σ × List ε) :
    σ → List α → σ × List ε
  | st, [] => (st, [])
  | st, e :: rest =>
    let p := step st e
    let q := procList step p.1 rest
    (q.1, p.2 ++ q.2)

/-- Shape of the record returned by a `safeRun2` body (type `SafeRunBody`,
lines 70-73): which of the two optional fields `onCancel` / `onClose` are
present.  A missing field defaults to `noop` (lines 97-98). -/
structure Body2Return where
  onCancel : Bool
  onClose : Bool
deriving DecidableEq

/-- Effects of running the guard's close procedure: it invokes the installed
`onClose` operation (a no-op when the body supplied none) and then severs all
references (lines 79-91). -/
def closeEffs (onCloseActive : Bool) : List (GuardEff S F D) :=
  if onCloseActive then [.onClose] else []

/-- One synchronous call into the wrapped callbacks of `safeRun2`
(lines 92-96) while the body is still running: `onClose` is still the initial
`noop` at this point, so closing emits nothing beyond the handler invocation.
After the first close the severed callbacks are all `noop`.  The `defect`
callback is only passed to the body when a `catch` handler is present
(line 95); with no `catch` handler the body receives `undefined` in that
position and cannot call it. -/
def sync2Step (catchPresent : Bool) :
    Bool → SyncEvent S F D → Bool × List (GuardEff S F D)
  | false, .succeed x => (true, [.success x])
  | false, .fail e => (true, [.failure e])
  | false, .defect e =>
    if catchPresent then (true, [.caught e]) else (false, [])
  | true, _ => (true, [])

/-- One call into `safeRun2`'s exposed callbacks after the body has returned:
the wrapped `succeed`/`fail`/`defect` callbacks (lines 92-96) now close with
the installed `onClose`, and the returned cancellation handle (line 103) runs
`onCancel` then the close procedure.  Once closed, every reference is severed
and all calls are absorbed. -/
def post2Step (catchPresent onCancelActive onCloseActive : Bool) :
    Bool → PostEvent S F D → Bool × List (GuardEff S F D)
  | false, .succeed x => (true, [.success x] ++ closeEffs onCloseActive)
  | false, .fail e => (true, [.failure e] ++ closeEffs onCloseActive)
  | false, .defect e =>
    if catchPresent then (true, [.caught e] ++ closeEffs onCloseActive)
    else (false, [])
  | false, .cancel =>
    (true, (if onCancelActive then [.onCancel] else []) ++
      closeEffs onCloseActive)
  | true, _ => (true, [])

/-- Full observable trace of one `safeRun2` execution instance
(lines 74-104): process the body's synchronous settlement calls, then apply
lines 97-102 (install `onCancel`/`onClose` from the body's return record with
missing fields defaulting to `noop`; if the body already settled
synchronously, discard `onCancel` and run `onClose` once), then process the
asynchronous events through the post-body machine. -/
def safeRun2Model (catchPresent : Bool) (sync : List (SyncEvent S F D))
    (ret : Body2Return) (post : List (PostEvent S F D)) :
    List (GuardEff S F D) :=
  let s := procList (sync2Step catchPresent) false sync
  let afterBody : List (GuardEff S F D) :=
    if s.1 && ret.onClose then [.onClose] else []
  let p := procList
    (post2Step catchPresent (ret.onCancel && !s.1) ret.onClose) s.1 post
  s.2 ++ afterBody ++ p.2

/-- The closed flag of the `safeRun2` guard after the body's synchronous
calls. -/
def sync2Closed (catchPresent : Bool) (sync : List (SyncEvent S F D)) : Bool :=
  (procList (sync2Step catchPresent) false sync).1

/-- The closed flag of the `safeRun2` guard after the whole event sequence. -/
def safeRun2Closed (catchPresent : Bool) (sync : List (SyncEvent S F D))
    (ret : Body2Return) (post : List (PostEvent S F D)) : Bool :=
  let s := procList (sync2Step catchPresent) false sync
  (procList
    (post2Step catchPresent (ret.onCancel && !s.1) ret.onClose) s.1 post).1

/-- A synchronous settlement call into `safeRun`'s wrapped callbacks
(lines 49-52); `safeRun` wires no `catch` channel, so there is no defect
call. -/
inductive SRSyncEvent (S F : Type) where
  | succeed (x : S)
  | fail (e : F)
deriving DecidableEq

/-- An event after `safeRun`'s computation has returned: an asynchronous
settlement, or the user invoking the returned cancellation handle
(line 67). -/
inductive SRPostEvent (S F : Type) where
  | succeed (x : S)
  | fail (e : F)
  | cancel
deriving DecidableEq

/-- Shape of the value returned by a `safeRun` computation (line 31): a falsy
value, a plain cancellation function, or a record `{cancel?, onClose}` whose
`cancel` field is optional and whose `onClose` field is present. -/
inductive CompReturn where
  | nothing
  | fn
  | record (hasCancel : Bool)
deriving DecidableEq

/-- Whether `safeRun` installs a cancel operation from the computation's
return value (lines 53-61): a plain function is treated as the cancel
operation, a record contributes its optional `cancel` field. -/
def srCancelActive : CompReturn → Bool
  | .nothing => false
  | .fn => true
  | .record hasCancel => hasCancel

/-- Whether `safeRun` installs an `onClose` operation (line 60): only a
record return carries one. -/
def srOnCloseActive : CompReturn → Bool
  | .record _ => true
  | _ => false

/-- One synchronous call into `safeRun`'s wrapped callbacks (lines 49-52)
while the computation is still running; `onClose` is still `noop`. -/
def srSyncStep : Bool → SRSyncEvent S F → Bool × List (GuardEff S F D)
  | false, .succeed x => (true, [.success x])
  | false, .fail e => (true, [.failure e])
  | true, _ => (true, [])

/-- One call into `safeRun`'s exposed callbacks after the computation has
returned, with the cancel/onClose operations of lines 53-62 installed. -/
def srPostStep (cancelActive onCloseActive : Bool) :
    Bool → SRPostEvent S F → Bool × List (GuardEff S F D)
  | false, .succeed x => (true, [.success x] ++ closeEffs onCloseActive)
  | false, .fail e => (true, [.failure e] ++ closeEffs onCloseActive)
  | false, .cancel =>
    (true, (if cancelActive then [.onCancel] else []) ++
      closeEffs onCloseActive)
  | true, _ => (true, [])

/-- Full observable trace of one `safeRun` execution instance (lines 30-68):
synchronous phase, then lines 53-66 (normalize the computation's return
value; on synchronous settlement discard the cancel operation and run
`onClose` once), then the asynchronous events. -/
def safeRunModel (sync : List (SRSyncEvent S F)) (ret : CompReturn)
    (post : List (SRPostEvent S F)) : List (GuardEff S F D) :=
  let s := procList (srSyncStep (D := D)) false sync
  let afterBody : List (GuardEff S F D) :=
    if s.1 && srOnCloseActive ret then [.onClose] else []
  let p := procList
    (srPostStep (srCancelActive ret && !s.1) (srOnCloseActive ret)) s.1 post
  s.2 ++ afterBody ++ p.2

/-- The closed flag of the `safeRun` guard after the body's synchronous
calls. -/
def srSyncClosed (D : Type) (sync : List (SRSyncEvent S F)) : Bool :=
  (procList (srSyncStep (D := D)) false sync).1

/-- The closed flag of the `safeRun` guard after the whole event sequence. -/
def safeRunClosed (D : Type) (sync : List (SRSyncEvent S F))
    (ret : CompReturn) (post : List (SRPostEvent S F)) : Bool :=
  let s := procList (srSyncStep (D := D)) false sync
  (procList
    (srPostStep (S := S) (F := F) (D := D)
      (srCancelActive ret && !s.1) (srOnCloseActive ret)) s.1 post).1

/-- A JavaScript value as far as the default failure handler is concerned:
an `Error` instance (with its message), or a non-`Error` value with its
`String(...)` rendering. -/
inductive JSVal where
  | errorV (msg : String)
  | strV (s : String)
  | numV (n : Int)
deriving DecidableEq

/-- The `String(failure)` coercion used at line 21. -/
def jsToString : JSVal → String
  | .errorV m => "Error: " ++ m
  | .strV s => s
  | .numV n => toString n

/-- Outcome of invoking a failure handler on a domain failure: the handler
returns normally (the failure is consumed) or throws a value. -/
inductive HandlerOutcome where
  | returned
  | thrown (e : JSVal)
deriving DecidableEq

/-- The default failure handler (lines 17-23): rethrow an `Error` failure
as-is, wrap any other failure value in a new `Error` built from its string
rendering. -/
def defaultFailureHandler : JSVal → HandlerOutcome
  | .errorV m => .thrown (.errorV m)
  | v => .thrown (.errorV (jsToString v))

/-- A handler function as it appears in a handler record: a user-supplied
callback, the `noop` default, the default failure handler, or a combinator's
wrapper around another handler (e.g. `Map`'s `x => success(fn(x))`,
line 337). -/
inductive HandlerFn where
  | user (id : Nat)
  | noopH
  | defaultFailure
  | wrapped (base : HandlerFn)
deriving DecidableEq

/-- A normalized handler record `{success, failure, catch?}` (type
`Handlers`, lines 5-9). -/
structure HandlersRec where
  success : HandlerFn
  failure : HandlerFn
  catch_ : Option HandlerFn
deriving DecidableEq

/-- The argument accepted by `Task.run` (type `LooseHandlers`, lines 10-14):
a bare success callback, or a record with all three fields optional. -/
inductive LooseHandlers where
  | fn (success : HandlerFn)
  | record (success : Option HandlerFn) (failure : Option HandlerFn)
      (catch_ : Option HandlerFn)
deriving DecidableEq

/-- The handler normalization in `Task.run` (lines 188-193): a bare function
becomes the success handler with the default failure handler; in a record a
missing `success` defaults to `noop` and a missing `failure` defaults to the
default failure handler, while `catch` is passed through. -/
def normalizeHandlers : LooseHandlers → HandlersRec
  | .fn h => ⟨h, .defaultFailure, none⟩
  | .record s f c => ⟨s.getD .noopH, f.getD .defaultFailure, c⟩

/-- Invoking a failure handler on a domain failure value: user handlers,
`noop` and wrappers return normally; the default failure handler throws. -/
def applyFailure : HandlerFn → JSVal → HandlerOutcome
  | .defaultFailure, v => defaultFailureHandler v
  | _, _ => .returned

/-- The loose handler record `Map._run` passes to its child task
(lines 336-339): a wrapped success handler, the outer failure handler, and
no `catch` field. -/
def mapChildHandlers (h : HandlersRec) : LooseHandlers :=
  .record (some (.wrapped h.success)) (some h.failure) none

/-- The loose handler record `MapRejected._run` passes to its child task
(lines 356-359): the outer success handler, a wrapped failure handler, and
no `catch` field. -/
def mapRejectedChildHandlers (h : HandlersRec) : LooseHandlers :=
  .record (some h.success) (some (.wrapped h.failure)) none

/-- Result of the inner success callback of `Chain._run` (lines 379-387)
when the continuation `_fn` either returns (the second task is started) or
throws synchronously. -/
inductive ChainFnResult (E : Type) where
  | ranSecond
  | caught (e : E)
  | propagated (e : E)
deriving DecidableEq

/-- How `Chain._run`'s inner success callback (lines 379-387) treats a
synchronous throw from the continuation: with a `catch` handler present the
call is wrapped in try/catch and the thrown value is routed to `catch`;
without one the continuation is called bare and the throw propagates
synchronously. -/
def chainOnFirstSuccess (catch_ : Option HandlerFn) (thrown : Option E) :
    ChainFnResult E :=
  match thrown with
  | none => .ranSecond
  | some e =>
    match catch_ with
    | some _ => .caught e
    | none => .propagated e

/-- An event delivered to the execution instance of a fan-out combinator
(`All` / `Race`): sub-task `i` settling with a success value or a failure,
or the user invoking the outer cancellation handle. -/
inductive FanEvent (S F : Type) where
  | settle (i : Nat) (r : S ⊕ F)
  | cancel
deriving DecidableEq

/-- An observable effect of running `All`: sub-task `i` being started
(line 297 runs every task in the list), the outer success handler receiving
the results array, the outer failure handler receiving an error, or sub-task
`i`'s cancellation handle being invoked by `cancels.forEach` (line 298). -/
inductive AllEff (S F : Type) where
  | start (i : Nat)
  | success (vs : List (Option S))
  | failure (e : F)
  | cancelSub (i : Nat)
deriving DecidableEq

/-- The mutable state of one `All` execution instance (lines 284-286 and the
closed flag of the `safeRun` guard it runs in): the per-index results array,
the completed count, and whether the guard has closed. -/
structure AllState (S : Type) where
  values : List (Option S)
  completedCount : Nat
  closed : Bool
deriving DecidableEq

/-- The effects of `All`'s `onClose` operation (line 298): invoke every
accumulated sub-task cancellation handle, in index order. -/
def cancelAllEffs (n : Nat) : List (AllEff S F) :=
  (List.range n).map .cancelSub

/-- One event processed by an `All` execution instance, inlining the inner
handlers of lines 287-296 with the `safeRun` guard: a sub-task success always
records its value and bumps the count (the inner callbacks are never
severed), and delivers the outer success — closing the guard, which runs
`onClose` — exactly when the count reaches the list length with the guard
still open; a sub-task failure is the guard-wrapped outer failure handler; a
user cancel runs the guard's close procedure.  All calls after the guard has
closed are absorbed without user-visible effect. -/
def allStep (n : Nat) (st : AllState S) :
    FanEvent S F → AllState S × List (AllEff S F)
  | .settle i (.inl x) =>
    let values := st.values.set i (some x)
    let completedCount := st.completedCount + 1
    if completedCount = n then
      if st.closed then (⟨values, completedCount, true⟩, [])
      else (⟨values, completedCount, true⟩,
        [.success values] ++ cancelAllEffs n)
    else (⟨values, completedCount, st.closed⟩, [])
  | .settle _ (.inr e) =>
    if st.closed then (st, [])
    else ({st with closed := true}, [.failure e] ++ cancelAllEffs n)
  | .cancel =>
    if st.closed then (st, [])
    else ({st with closed := true}, cancelAllEffs n)

/-- Observable trace of running `All` over `n` sub-tasks (lines 282-300):
every sub-task is started (line 297), then the settlement events and user
cancellations are processed against the fresh state (empty results array,
zero count, open guard). -/
def allRun (n : Nat) (evs : List (FanEvent S F)) : List (AllEff S F) :=
  (List.range n).map .start ++
    (procList (allStep n) ⟨List.replicate n none, 0, false⟩ evs).2

/-- An observable effect of running `Race`: sub-task `i` being started
(line 316), an outer settlement, or sub-task `i`'s cancellation handle being
invoked by `cancels.forEach` (line 317). -/
inductive RaceEff (S F : Type) where
  | start (i : Nat)
  | success (x : S)
  | failure (e : F)
  | cancelSub (i : Nat)
deriving DecidableEq

/-- The effects of `Race`'s `onClose` operation (line 317): invoke every
sub-task cancellation handle, in index order. -/
def raceCancelEffs (n : Nat) : List (RaceEff S F) :=
  (List.range n).map .cancelSub

/-- One event processed by a `Race` execution instance (lines 313-319): all
sub-tasks share the guard's wrapped handler pair, so the first settlement
through either channel delivers and closes the guard (running `onClose`,
which cancels every sub-task); every later call is absorbed. -/
def raceStep (n : Nat) (st : Bool) :
    FanEvent S F → Bool × List (RaceEff S F)
  | .settle _ (.inl x) =>
    if st then (true, []) else (true, [.success x] ++ raceCancelEffs n)
  | .settle _ (.inr e) =>
    if st then (true, []) else (true, [.failure e] ++ raceCancelEffs n)
  | .cancel => if st then (true, []) else (true, raceCancelEffs n)

/-- Observable trace of running `Race` over `n` sub-tasks (lines 313-319). -/
def raceRun (n : Nat) (evs : List (FanEvent S F)) : List (RaceEff S F) :=
  (List.range n).map .start ++ (procList (raceStep n) false evs).2

/-- Whether a `Race` effect is a settlement delivered to the user. -/
def isRaceSettle : RaceEff S F → Bool
  | .success _ => true
  | .failure _ => true
  | _ => false

/-- An event delivered to a `Chain` execution instance: the first task
settling, the second task (produced by the continuation) settling, or the
user invoking the combined cancellation handle. -/
inductive ChainEvent (S T F : Type) where
  | first (r : S ⊕ F)
  | second (r : T ⊕ F)
  | cancel
deriving DecidableEq

/-- An observable effect of running `Chain`: the continuation being applied
to the first task's success value and the resulting second task being run
(line 385), an outer settlement, or one of the two stored cancellation
handles (`cancel1`, `cancel2`, lines 377-378) being invoked by the combined
`onCancel` (line 391). -/
inductive ChainEff (S T F : Type) where
  | runSecond (x : S)
  | success (y : T)
  | failure (e : F)
  | cancelFirst
  | cancelSecond
deriving DecidableEq

/-- The mutable state of one `Chain` execution instance: the `safeRun2`
guard's closed flag and whether `cancel2` has been replaced by the second
task's cancellation handle (line 385; it is `noop` until then). -/
structure ChainState where
  closed : Bool
  secondStarted : Bool
deriving DecidableEq

/-- One event processed by a `Chain` execution instance (lines 374-393, in
the case where the handler set carries no `catch` handler): the inner success
callback of the first task runs the continuation's task unconditionally (it
is never severed — only the first task's own guard keeps it from being
called); the first task's failure and both of the second task's channels are
the guard's wrapped handlers; the combined cancellation handle invokes
`cancel1` then `cancel2` (line 391) and closes the guard. -/
def chainStep (st : ChainState) :
    ChainEvent S T F → ChainState × List (ChainEff S T F)
  | .first (.inl x) => ({st with secondStarted := true}, [.runSecond x])
  | .first (.inr e) =>
    if st.closed then (st, [])
    else ({st with closed := true}, [.failure e])
  | .second (.inl y) =>
    if st.closed then (st, [])
    else ({st with closed := true}, [.success y])
  | .second (.inr e) =>
    if st.closed then (st, [])
    else ({st with closed := true}, [.failure e])
  | .cancel =>
    if st.closed then (st, [])
    else ({st with closed := true},
      [.cancelFirst] ++ if st.secondStarted then [.cancelSecond] else [])

/-- Observable trace of running `Chain` (lines 374-393) from the fresh state
(guard open, second task not yet produced). -/
def chainRun (evs : List (ChainEvent S T F)) : List (ChainEff S T F) :=
  (procList chainStep ⟨false, false⟩ evs).2

/-- Whether a `Chain` event is a settlement of the first task (used to state
well-formedness of event sequences: once the first task has been cancelled or
has settled, its guard prevents any further delivery). -/
def isFirstEvent : ChainEvent S T F → Bool
  | .first _ => true
  | _ => false

/-- Whether a synchronous guard event is a settlement call
(`succeed`/`fail`). -/
def isSyncSettle : SyncEvent S F D → Bool
  | .succeed _ => true
  | .fail _ => true
  | .defect _ => false

/-- Whether a post-body guard event is a settlement call
(`succeed`/`fail`). -/
def isPostSettle : PostEvent S F D → Bool
  | .succeed _ => true
  | .fail _ => true
  | _ => false

/-- Whether a fan-out event is a sub-task success settlement. -/
def isInlSettle : FanEvent S F → Bool
  | .settle _ (.inl _) => true
  | _ => false

/-- The indices of the sub-task success settlements in an event sequence, in
order of occurrence. -/
def inlIndices : List (FanEvent S F) → List Nat
  | [] => []
  | .settle i (.inl _) :: rest => i :: inlIndices rest
  | _ :: rest => inlIndices rest

/-- Whether an `All` effect is a settlement delivered to the user. -/
def isAllSettle : AllEff S F → Bool
  | .success _ => true
  | .failure _ => true
  | _ => false

/-! ## Generic lemmas about event processing -/

theorem procList_append {σ ε α : Type} (step : σ → α → σ × List ε)
    (st : σ) (l₁ l₂ : List α) :
    procList step st (l₁ ++ l₂) =
      ((procList step (procList step st l₁).1 l₂).1,
        (procList step st l₁).2 ++ (procList step (procList step st l₁).1 l₂).2) := by
  induction l₁ generalizing st with
  | nil => simp [procList]
  | cons e rest ih => simp [procList, ih]

theorem procList_absorbed {α ε : Type} (step : Bool → α → Bool × List ε)
    (habs : ∀ e, step true e = (true, ([] : List ε))) (l : List α) :
    procList step true l = (true, []) := by
  induction l with
  | nil => rfl
  | cons e rest ih => simp [procList, habs, ih]

theorem procList_not_mem {σ α ε : Type} (step : σ → α → σ × List ε)
    (x : ε) (h : ∀ st e, x ∉ (step st e).2) (st : σ) (l : List α) :
    x ∉ (procList step st l).2 := by
  induction l generalizing st with
  | nil => simp [procList]
  | cons e rest ih =>
    simp only [procList]
    intro hmem
    rcases List.mem_append.mp hmem with hc | hc
    · exact h st e hc
    · exact ih _ hc

theorem procList_filter_nil {σ α ε : Type} (step : σ → α → σ × List ε)
    (P : ε → Bool) (l : List α)
    (h : ∀ e ∈ l, ∀ st, ((step st e).2).filter P = []) (st : σ) :
    ((procList step st l).2).filter P = [] := by
  induction l generalizing st with
  | nil => simp [procList]
  | cons e rest ih =>
    simp only [procList, List.filter_append]
    rw [h e (List.mem_cons_self e rest) st,
      ih (fun e' he' st' => h e' (List.mem_cons_of_mem e he') st')]
    rfl

theorem procList_open_quiet {α ε : Type} (step : Bool → α → Bool × List ε)
    (habs : ∀ e, step true e = (true, ([] : List ε)))
    (hq : ∀ e, (step false e).1 = false → (step false e).2 = [])
    (l : List α) (h : (procList step false l).1 = false) :
    (procList step false l).2 = [] := by
  induction l with
  | nil => rfl
  | cons e rest ih =>
    simp only [procList] at h ⊢
    rcases hs : (step false e).1 with _ | _
    · rw [hs] at h
      rw [hq e hs, ih h]
      rfl
    · rw [hs, procList_absorbed step habs rest] at h
      exact absurd h (by simp)

theorem procList_filter_le_one {α ε : Type} (step : Bool → α → Bool × List ε)
    (P : ε → Bool)
    (habs : ∀ e, step true e = (true, ([] : List ε)))
    (hq : ∀ e, (step false e).1 = false → (step false e).2 = [])
    (hone : ∀ e, (((step false e).2).filter P).length ≤ 1)
    (l : List α) :
    (((procList step false l).2).filter P).length ≤ 1 := by
  induction l with
  | nil => simp [procList]
  | cons e rest ih =>
    simp only [procList, List.filter_append, List.length_append]
    rcases hs : (step false e).1 with _ | _
    · rw [hq e hs]
      simpa using ih
    · rw [procList_absorbed step habs rest]
      simpa using hone e

/-! ## Facts about the guard step machines -/

theorem sync2Step_absorb (cp : Bool) (e : SyncEvent S F D) :
    sync2Step cp true e = (true, []) := by
  cases e <;> rfl

theorem sync2Step_quiet (cp : Bool) (e : SyncEvent S F D)
    (h : (sync2Step cp false e).1 = false) :
    (sync2Step cp false e).2 = [] := by
  cases e <;> cases cp <;> simp_all [sync2Step]

theorem sync2Step_settle_le (cp : Bool) (e : SyncEvent S F D) :
    (((sync2Step cp false e).2).filter isSettleEff).length ≤ 1 := by
  cases e <;> cases cp <;> simp [sync2Step, isSettleEff]

theorem sync2Step_no_onCancel (cp : Bool) (st : Bool) (e : SyncEvent S F D) :
    GuardEff.onCancel ∉ (sync2Step cp st e).2 := by
  cases st <;> cases e <;> cases cp <;> simp [sync2Step]

theorem sync2Step_no_onClose (cp : Bool) (st : Bool) (e : SyncEvent S F D) :
    GuardEff.onClose ∉ (sync2Step cp st e).2 := by
  cases st <;> cases e <;> cases cp <;> simp [sync2Step]

theorem post2Step_absorb (cp ca co : Bool) (e : PostEvent S F D) :
    post2Step cp ca co true e = (true, []) := by
  cases e <;> rfl

theorem post2Step_quiet (cp ca co : Bool) (e : PostEvent S F D)
    (h : (post2Step cp ca co false e).1 = false) :
    (post2Step cp ca co false e).2 = [] := by
  cases e <;> cases cp <;> simp_all [post2Step]

theorem post2Step_settle_le (cp ca co : Bool) (e : PostEvent S F D) :
    (((post2Step cp ca co false e).2).filter isSettleEff).length ≤ 1 := by
  cases e <;> cases cp <;> cases ca <;> cases co <;>
    simp [post2Step, closeEffs, isSettleEff]

theorem post2Step_no_onCancel (cp co : Bool) (st : Bool)
    (e : PostEvent S F D) :
    GuardEff.onCancel ∉ (post2Step cp false co st e).2 := by
  cases st <;> cases e <;> cases cp <;> cases co <;>
    simp [post2Step, closeEffs]

theorem post2Step_no_onClose (cp ca : Bool) (st : Bool)
    (e : PostEvent S F D) :
    GuardEff.onClose ∉ (post2Step cp ca false st e).2 := by
  cases st <;> cases e <;> cases cp <;> cases ca <;>
    simp [post2Step, closeEffs]

theorem post2Step_settle_free (cp ca co : Bool) (st : Bool)
    (e : PostEvent S F D) (he : isPostSettle e = false) :
    (((post2Step cp ca co st e).2).filter isSettleEff) = [] := by
  cases st <;> cases e <;> cases cp <;> cases ca <;> cases co <;>
    simp_all [post2Step, closeEffs, isSettleEff, isPostSettle]

theorem post2Step_cancel_closes (cp ca co : Bool) (st : Bool) :
    (post2Step cp ca co st (.cancel : PostEvent S F D)).1 = true := by
  cases st <;> rfl

theorem srSyncStep_absorb (e : SRSyncEvent S F) :
    srSyncStep (D := D) true e = (true, []) := by
  cases e <;> rfl

theorem srSyncStep_quiet (e : SRSyncEvent S F)
    (h : (srSyncStep (D := D) false e).1 = false) :
    (srSyncStep (D := D) false e).2 = [] := by
  cases e <;> simp_all [srSyncStep]

theorem srSyncStep_settle_le (e : SRSyncEvent S F) :
    (((srSyncStep (D := D) false e).2).filter isSettleEff).length ≤ 1 := by
  cases e <;> simp [srSyncStep, isSettleEff]

theorem srSyncStep_no_onCancel (st : Bool) (e : SRSyncEvent S F) :
    GuardEff.onCancel ∉ (srSyncStep (D := D) st e).2 := by
  cases st <;> cases e <;> simp [srSyncStep]

theorem srSyncStep_no_onClose (st : Bool) (e : SRSyncEvent S F) :
    GuardEff.onClose ∉ (srSyncStep (D := D) st e).2 := by
  cases st <;> cases e <;> simp [srSyncStep]

theorem srPostStep_absorb (ca co : Bool) (e : SRPostEvent S F) :
    srPostStep (D := D) ca co true e = (true, []) := by
  cases e <;> rfl

theorem srPostStep_quiet (ca co : Bool) (e : SRPostEvent S F)
    (h : (srPostStep (D := D) ca co false e).1 = false) :
    (srPostStep (D := D) ca co false e).2 = [] := by
  cases e <;> simp_all [srPostStep]

theorem srPostStep_settle_le (ca co : Bool) (e : SRPostEvent S F) :
    (((srPostStep (D := D) ca co false e).2).filter isSettleEff).length ≤ 1 := by
  cases e <;> cases ca <;> cases co <;>
    simp [srPostStep, closeEffs, isSettleEff]

theorem srPostStep_no_onCancel (co : Bool) (st : Bool) (e : SRPostEvent S F) :
    GuardEff.onCancel ∉ (srPostStep (D := D) false co st e).2 := by
  cases st <;> cases e <;> cases co <;> simp [srPostStep, closeEffs]

theorem srPostStep_cancel_closes (ca co : Bool) (st : Bool) :
    (srPostStep (D := D) ca co st (.cancel : SRPostEvent S F)).1 = true := by
  cases st <;> rfl

/-! ## Settlement guard properties -/

theorem guardSettles_append (a b : List (GuardEff S F D)) :
    guardSettles (a ++ b) = guardSettles a ++ guardSettles b :=
  List.filter_append a b

theorem countOnClose_append (a b : List (GuardEff S F D)) :
    countOnClose (a ++ b) = countOnClose a + countOnClose b := by
  simp [countOnClose, List.filter_append]

theorem safeRun2_settles_le_one (cp : Bool) (sync : List (SyncEvent S F D))
    (ret : Body2Return) (post : List (PostEvent S F D)) :
    (guardSettles (safeRun2Model cp sync ret post)).length ≤ 1 := by
  simp only [safeRun2Model, guardSettles, List.filter_append,
    List.length_append]
  rcases hcl : (procList (sync2Step cp) false sync).1 with _ | _
  · rw [procList_open_quiet _ (sync2Step_absorb cp) (sync2Step_quiet cp)
      sync hcl]
    have hpost := procList_filter_le_one
      (post2Step cp (ret.onCancel && !false) ret.onClose) isSettleEff
      (post2Step_absorb cp _ _) (post2Step_quiet cp _ _)
      (post2Step_settle_le cp _ _) post
    simpa [isSettleEff] using hpost
  · rw [procList_absorbed _ (post2Step_absorb cp _ _) post]
    have hsync := procList_filter_le_one (sync2Step cp) isSettleEff
      (sync2Step_absorb cp) (sync2Step_quiet cp) (sync2Step_settle_le cp)
      sync
    cases ret.onClose <;> simpa [isSettleEff] using hsync

theorem safeRun2_first_sync_succeed (cp : Bool) (x : S)
    (sync' : List (SyncEvent S F D)) (ret : Body2Return)
    (post : List (PostEvent S F D)) :
    guardSettles (safeRun2Model cp (.succeed x :: sync') ret post) =
      [.success x] := by
  simp only [safeRun2Model, procList, sync2Step]
  simp only [procList_absorbed _ (sync2Step_absorb cp) sync']
  simp only [Bool.not_true, Bool.and_false, Bool.true_and]
  simp only [procList_absorbed _ (post2Step_absorb cp _ _) post]
  cases ret.onClose <;> simp [guardSettles, isSettleEff]

theorem safeRun2_first_sync_fail (cp : Bool) (e : F)
    (sync' : List (SyncEvent S F D)) (ret : Body2Return)
    (post : List (PostEvent S F D)) :
    guardSettles (safeRun2Model (S := S) cp (.fail e :: sync') ret post) =
      [.failure e] := by
  simp only [safeRun2Model, procList, sync2Step]
  simp only [procList_absorbed _ (sync2Step_absorb cp) sync']
  simp only [Bool.not_true, Bool.and_false, Bool.true_and]
  simp only [procList_absorbed _ (post2Step_absorb cp _ _) post]
  cases ret.onClose <;> simp [guardSettles, isSettleEff]

theorem safeRun2_first_post_succeed (cp : Bool) (x : S)
    (ret : Body2Return) (post' : List (PostEvent S F D)) :
    guardSettles (safeRun2Model cp [] ret (.succeed x :: post')) =
      [.success x] := by
  simp only [safeRun2Model, procList, post2Step]
  rw [procList_absorbed _ (post2Step_absorb cp _ _) post']
  cases ret.onClose <;> simp [guardSettles, isSettleEff, closeEffs]

theorem safeRun2_first_post_fail (cp : Bool) (e : F)
    (ret : Body2Return) (post' : List (PostEvent S F D)) :
    guardSettles (safeRun2Model (S := S) cp [] ret (.fail e :: post')) =
      [.failure e] := by
  simp only [safeRun2Model, procList, post2Step]
  rw [procList_absorbed _ (post2Step_absorb cp _ _) post']
  cases ret.onClose <;> simp [guardSettles, isSettleEff, closeEffs]

theorem safeRun_settles_le_one (sync : List (SRSyncEvent S F))
    (ret : CompReturn) (post : List (SRPostEvent S F)) :
    (guardSettles (safeRunModel (D := D) sync ret post)).length ≤ 1 := by
  simp only [safeRunModel, guardSettles, List.filter_append,
    List.length_append]
  rcases hcl : (procList (srSyncStep (D := D)) false sync).1 with _ | _
  · rw [procList_open_quiet _ srSyncStep_absorb srSyncStep_quiet sync hcl]
    have hpost := procList_filter_le_one
      (srPostStep (D := D) (srCancelActive ret && !false)
        (srOnCloseActive ret)) isSettleEff
      (srPostStep_absorb _ _) (srPostStep_quiet _ _)
      (srPostStep_settle_le _ _) post
    simpa [isSettleEff] using hpost
  · rw [procList_absorbed _ (srPostStep_absorb _ _) post]
    have hsync := procList_filter_le_one (srSyncStep (D := D)) isSettleEff
      srSyncStep_absorb srSyncStep_quiet srSyncStep_settle_le sync
    cases hco : srOnCloseActive ret <;> simpa [isSettleEff] using hsync

theorem safeRun_first_sync_succeed (x : S)
    (sync' : List (SRSyncEvent S F)) (ret : CompReturn)
    (post : List (SRPostEvent S F)) :
    guardSettles (safeRunModel (D := D) (.succeed x :: sync') ret post) =
      [.success x] := by
  simp only [safeRunModel, procList, srSyncStep]
  simp only [procList_absorbed _ srSyncStep_absorb sync']
  simp only [Bool.not_true, Bool.and_false, Bool.true_and]
  simp only [procList_absorbed _ (srPostStep_absorb _ _) post]
  cases hco : srOnCloseActive ret <;> simp [guardSettles, isSettleEff]

theorem safeRun_first_sync_fail (e : F)
    (sync' : List (SRSyncEvent S F)) (ret : CompReturn)
    (post : List (SRPostEvent S F)) :
    guardSettles (safeRunModel (S := S) (D := D) (.fail e :: sync') ret post) =
      [.failure e] := by
  simp only [safeRunModel, procList, srSyncStep]
  simp only [procList_absorbed _ srSyncStep_absorb sync']
  simp only [Bool.not_true, Bool.and_false, Bool.true_and]
  simp only [procList_absorbed _ (srPostStep_absorb _ _) post]
  cases hco : srOnCloseActive ret <;> simp [guardSettles, isSettleEff]

/-- C1: for every execution instance created through a settlement guard
(`safeRun2`, lines 74-104, used by `FromComputation` and `Chain`, and
`safeRun`, lines 30-68, used by `All`, `Race` and `OrElse`), at most one of
the wrapped success/failure callbacks ever reaches the user handlers, and
only the first invocation is observed: whatever the wrapped computation does
afterwards — including a leaf computation incorrectly calling `succeed`
twice — produces no further handler invocation. -/
theorem guard_settles_at_most_once (S F D : Type) :
    (∀ (cp : Bool) (sync : List (SyncEvent S F D)) (ret : Body2Return)
        (post : List (PostEvent S F D)),
      (guardSettles (safeRun2Model cp sync ret post)).length ≤ 1)
    ∧ (∀ (cp : Bool) (x : S) (sync' : List (SyncEvent S F D))
        (ret : Body2Return) (post : List (PostEvent S F D)),
      guardSettles (safeRun2Model cp (.succeed x :: sync') ret post) =
        [.success x])
    ∧ (∀ (cp : Bool) (e : F) (sync' : List (SyncEvent S F D))
        (ret : Body2Return) (post : List (PostEvent S F D)),
      guardSettles (safeRun2Model (S := S) cp (.fail e :: sync') ret post) =
        [.failure e])
    ∧ (∀ (cp : Bool) (x : S) (ret : Body2Return)
        (post' : List (PostEvent S F D)),
      guardSettles (safeRun2Model cp [] ret (.succeed x :: post')) =
        [.success x])
    ∧ (∀ (cp : Bool) (e : F) (ret : Body2Return)
        (post' : List (PostEvent S F D)),
      guardSettles (safeRun2Model (S := S) cp [] ret (.fail e :: post')) =
        [.failure e])
    ∧ (∀ (sync : List (SRSyncEvent S F)) (ret : CompReturn)
        (post : List (SRPostEvent S F)),
      (guardSettles (safeRunModel (D := D) sync ret post)).length ≤ 1)
    ∧ (∀ (x : S) (sync' : List (SRSyncEvent S F)) (ret : CompReturn)
        (post : List (SRPostEvent S F)),
      guardSettles (safeRunModel (D := D) (.succeed x :: sync') ret post) =
        [.success x])
    ∧ (∀ (e : F) (sync' : List (SRSyncEvent S F)) (ret : CompReturn)
        (post : List (SRPostEvent S F)),
      guardSettles
          (safeRunModel (S := S) (D := D) (.fail e :: sync') ret post) =
        [.failure e]) :=
  ⟨safeRun2_settles_le_one, safeRun2_first_sync_succeed,
    safeRun2_first_sync_fail, safeRun2_first_post_succeed,
    safeRun2_first_post_fail, safeRun_settles_le_one,
    safeRun_first_sync_succeed, safeRun_first_sync_fail⟩

theorem sync2Step_settle_free (cp : Bool) (st : Bool) (e : SyncEvent S F D)
    (he : isSyncSettle e = false) :
    ((sync2Step cp st e).2).filter isSettleEff = [] := by
  cases st <;> cases e <;> cases cp <;>
    simp_all [sync2Step, isSettleEff, isSyncSettle]

theorem postProc_cancel_settle_free (cp ca co : Bool)
    (p₁ p₂ : List (PostEvent S F D))
    (hp₁ : ∀ e ∈ p₁, isPostSettle e = false) :
    List.filter isSettleEff
      (procList (post2Step cp ca co) false (p₁ ++ .cancel :: p₂)).2 = [] := by
  rw [procList_append]
  simp only [procList]
  rw [post2Step_cancel_closes cp ca co _]
  rw [procList_absorbed _ (post2Step_absorb cp ca co) p₂]
  simp only [List.filter_append, List.append_nil]
  rw [procList_filter_nil _ _ p₁
    (fun e he st => post2Step_settle_free cp ca co st e (hp₁ e he)) false]
  rw [post2Step_settle_free cp ca co _ PostEvent.cancel rfl]
  rfl

theorem safeRun2_cancel_silences (cp : Bool) (sync : List (SyncEvent S F D))
    (ret : Body2Return) (p₁ p₂ : List (PostEvent S F D))
    (hsync : ∀ e ∈ sync, isSyncSettle e = false)
    (hp₁ : ∀ e ∈ p₁, isPostSettle e = false) :
    guardSettles (safeRun2Model cp sync ret (p₁ ++ .cancel :: p₂)) = [] := by
  simp only [safeRun2Model, guardSettles, List.filter_append]
  rw [procList_filter_nil _ _ sync
    (fun e he st => sync2Step_settle_free cp st e (hsync e he)) false]
  rcases hcl : (procList (sync2Step cp) false sync).1 with _ | _
  · rw [postProc_cancel_settle_free cp _ _ p₁ p₂ hp₁]
    simp [isSettleEff]
  · rw [procList_absorbed _ (post2Step_absorb cp _ _) (p₁ ++ .cancel :: p₂)]
    cases ret.onClose <;> simp [isSettleEff]

theorem srPostStep_cancel_settle_free (ca co : Bool) (st : Bool) :
    ((srPostStep (S := S) (F := F) (D := D) ca co st .cancel).2).filter
      isSettleEff = [] := by
  cases st <;> cases ca <;> cases co <;>
    simp [srPostStep, closeEffs, isSettleEff]

theorem safeRun_cancel_silences (ret : CompReturn)
    (p₁ p₂ : List (SRPostEvent S F))
    (hp₁ : ∀ e ∈ p₁, e = SRPostEvent.cancel) :
    guardSettles
      (safeRunModel (D := D) [] ret (p₁ ++ .cancel :: p₂)) = [] := by
  simp only [safeRunModel, guardSettles, procList, List.filter_append]
  rw [procList_append]
  simp only [procList]
  rw [srPostStep_cancel_closes _ _ _]
  rw [procList_absorbed _ (srPostStep_absorb _ _) p₂]
  simp only [List.filter_append, List.append_nil]
  rw [procList_filter_nil _ _ p₁
    (fun e he st => by
      rw [hp₁ e he]; exact srPostStep_cancel_settle_free _ _ st) false]
  rw [srPostStep_cancel_settle_free _ _ _]
  simp [isSettleEff]

/-- C3: if the cancellation handle returned by a settlement guard is invoked
before any settlement has been delivered, then no success or failure handler
ever fires for that execution instance — even if the wrapped computation
later invokes its internal callbacks, those calls are absorbed because the
references were severed at cancellation.  Stated for `safeRun2`
(lines 79-103) with an arbitrary settlement-free prefix, and for `safeRun`
(lines 38-48, 67) whose computation returned without settling. -/
theorem cancel_before_settlement_silences (S F D : Type) :
    (∀ (cp : Bool) (sync : List (SyncEvent S F D)) (ret : Body2Return)
        (p₁ p₂ : List (PostEvent S F D)),
      (∀ e ∈ sync, isSyncSettle e = false) →
      (∀ e ∈ p₁, isPostSettle e = false) →
      guardSettles (safeRun2Model cp sync ret (p₁ ++ .cancel :: p₂)) = [])
    ∧ (∀ (ret : CompReturn) (p₁ p₂ : List (SRPostEvent S F)),
      (∀ e ∈ p₁, e = SRPostEvent.cancel) →
      guardSettles
        (safeRunModel (D := D) [] ret (p₁ ++ .cancel :: p₂)) = []) :=
  ⟨fun cp sync ret p₁ p₂ h1 h2 =>
      safeRun2_cancel_silences cp sync ret p₁ p₂ h1 h2,
    fun ret p₁ p₂ h1 => safeRun_cancel_silences ret p₁ p₂ h1⟩

/-- Witness for C3: cancel at once, then the computation calls `succeed`
later; the success handler never fires. -/
theorem cancel_before_settlement_silences_witness :
    guardSettles (safeRun2Model (S := Nat) (F := Nat) (D := Nat) true []
        ⟨true, true⟩ ([] ++ .cancel :: [.succeed 5])) = []
    ∧ guardSettles (safeRunModel (S := Nat) (F := Nat) (D := Nat) []
        CompReturn.fn ([] ++ .cancel :: [.succeed 7])) = [] :=
  ⟨(cancel_before_settlement_silences Nat Nat Nat).1 true [] ⟨true, true⟩
      [] [.succeed 5] (by simp) (by simp),
    (cancel_before_settlement_silences Nat Nat Nat).2 CompReturn.fn
      [] [.succeed 7] (by simp)⟩

theorem postProc_state_after_cancel (cp ca co : Bool) (st : Bool)
    (post : List (PostEvent S F D)) :
    (procList (post2Step cp ca co) st (post ++ [.cancel])).1 = true := by
  rw [procList_append]
  simp only [procList]
  exact post2Step_cancel_closes cp ca co _

theorem postProc_cancel_twice (cp ca co : Bool) (st : Bool)
    (post : List (PostEvent S F D)) :
    (procList (post2Step cp ca co) st (post ++ [.cancel, .cancel])).2 =
      (procList (post2Step cp ca co) st (post ++ [.cancel])).2 := by
  have hsplit : post ++ [PostEvent.cancel (S := S) (F := F) (D := D),
      PostEvent.cancel] = (post ++ [PostEvent.cancel]) ++ [.cancel] := by
    simp
  rw [hsplit, procList_append, postProc_state_after_cancel,
    procList_absorbed _ (post2Step_absorb cp ca co) [PostEvent.cancel]]
  simp

theorem safeRun2_cancel_twice (cp : Bool) (sync : List (SyncEvent S F D))
    (ret : Body2Return) (post : List (PostEvent S F D)) :
    safeRun2Model cp sync ret (post ++ [.cancel, .cancel]) =
      safeRun2Model cp sync ret (post ++ [.cancel]) := by
  simp only [safeRun2Model]
  rw [postProc_cancel_twice]

theorem safeRun2_cancel_after_closed (cp : Bool)
    (sync : List (SyncEvent S F D)) (ret : Body2Return)
    (post : List (PostEvent S F D))
    (h : safeRun2Closed cp sync ret post = true) :
    safeRun2Model cp sync ret (post ++ [.cancel]) =
      safeRun2Model cp sync ret post := by
  simp only [safeRun2Closed] at h
  simp only [safeRun2Model]
  rw [procList_append, h,
    procList_absorbed _ (post2Step_absorb cp _ _) [PostEvent.cancel]]
  simp

theorem srPostProc_state_after_cancel (ca co : Bool) (st : Bool)
    (post : List (SRPostEvent S F)) :
    (procList (srPostStep (D := D) ca co) st (post ++ [.cancel])).1 =
      true := by
  rw [procList_append]
  simp only [procList]
  exact srPostStep_cancel_closes ca co _

theorem srPostProc_cancel_twice (ca co : Bool) (st : Bool)
    (post : List (SRPostEvent S F)) :
    (procList (srPostStep (D := D) ca co) st
        (post ++ [.cancel, .cancel])).2 =
      (procList (srPostStep (D := D) ca co) st (post ++ [.cancel])).2 := by
  have hsplit : post ++ [SRPostEvent.cancel (S := S) (F := F),
      SRPostEvent.cancel] = (post ++ [SRPostEvent.cancel]) ++ [.cancel] := by
    simp
  rw [hsplit, procList_append, srPostProc_state_after_cancel,
    procList_absorbed _ (srPostStep_absorb ca co) [SRPostEvent.cancel]]
  simp

theorem safeRun_cancel_twice (sync : List (SRSyncEvent S F))
    (ret : CompReturn) (post : List (SRPostEvent S F)) :
    safeRunModel (D := D) sync ret (post ++ [.cancel, .cancel]) =
      safeRunModel sync ret (post ++ [.cancel]) := by
  simp only [safeRunModel]
  rw [srPostProc_cancel_twice]

theorem safeRun_cancel_after_closed (sync : List (SRSyncEvent S F))
    (ret : CompReturn) (post : List (SRPostEvent S F))
    (h : safeRunClosed D sync ret post = true) :
    safeRunModel (D := D) sync ret (post ++ [.cancel]) =
      safeRunModel sync ret post := by
  simp only [safeRunClosed] at h
  simp only [safeRunModel]
  rw [procList_append, h,
    procList_absorbed _ (srPostStep_absorb _ _) [SRPostEvent.cancel]]
  simp

/-- C9: the cancellation handle returned by a settlement guard is
idempotent: a second invocation of the handle adds no observable effect, and
invoking it after the execution instance has already closed (by settlement
or by an earlier cancellation) is a no-op.  Stated for `safeRun2`
(lines 79-103) and `safeRun` (lines 38-67). -/
theorem cancel_handle_idempotent (S F D : Type) :
    (∀ (cp : Bool) (sync : List (SyncEvent S F D)) (ret : Body2Return)
        (post : List (PostEvent S F D)),
      safeRun2Model cp sync ret (post ++ [.cancel, .cancel]) =
        safeRun2Model cp sync ret (post ++ [.cancel]))
    ∧ (∀ (cp : Bool) (sync : List (SyncEvent S F D)) (ret : Body2Return)
        (post : List (PostEvent S F D)),
      safeRun2Closed cp sync ret post = true →
      safeRun2Model cp sync ret (post ++ [.cancel]) =
        safeRun2Model cp sync ret post)
    ∧ (∀ (sync : List (SRSyncEvent S F)) (ret : CompReturn)
        (post : List (SRPostEvent S F)),
      safeRunModel (D := D) sync ret (post ++ [.cancel, .cancel]) =
        safeRunModel sync ret (post ++ [.cancel]))
    ∧ (∀ (sync : List (SRSyncEvent S F)) (ret : CompReturn)
        (post : List (SRPostEvent S F)),
      safeRunClosed D sync ret post = true →
      safeRunModel (D := D) sync ret (post ++ [.cancel]) =
        safeRunModel sync ret post) :=
  ⟨safeRun2_cancel_twice, safeRun2_cancel_after_closed,
    safeRun_cancel_twice, safeRun_cancel_after_closed⟩

/-- Witness for C9: after an asynchronous settlement has closed the
instance, invoking the cancellation handle changes nothing. -/
theorem cancel_handle_idempotent_witness :
    safeRun2Model (S := Nat) (F := Nat) (D := Nat) true [] ⟨true, true⟩
        ([.succeed 3] ++ [.cancel]) =
      safeRun2Model true [] ⟨true, true⟩ [.succeed 3]
    ∧ safeRunModel (S := Nat) (F := Nat) (D := Nat) [] CompReturn.fn
        ([.succeed 3] ++ [.cancel]) =
      safeRunModel [] CompReturn.fn [.succeed 3] :=
  ⟨(cancel_handle_idempotent Nat Nat Nat).2.1 true [] ⟨true, true⟩
      [.succeed 3] (by decide),
    (cancel_handle_idempotent Nat Nat Nat).2.2.2 [] CompReturn.fn
      [.succeed 3] (by decide)⟩

theorem sync2Step_onClose_filter (cp : Bool) (st : Bool)
    (e : SyncEvent S F D) :
    ((sync2Step cp st e).2).filter isOnCloseEff = [] := by
  cases st <;> cases e <;> cases cp <;>
    simp [sync2Step, isOnCloseEff]

theorem srSyncStep_onClose_filter (st : Bool) (e : SRSyncEvent S F) :
    ((srSyncStep (D := D) st e).2).filter isOnCloseEff = [] := by
  cases st <;> cases e <;> simp [srSyncStep, isOnCloseEff]

theorem safeRun2_no_onCancel_of_missing (cp : Bool)
    (sync : List (SyncEvent S F D)) (ret : Body2Return)
    (post : List (PostEvent S F D)) (h : ret.onCancel = false) :
    GuardEff.onCancel ∉ safeRun2Model cp sync ret post := by
  simp only [safeRun2Model, h, Bool.false_and]
  intro hmem
  rcases List.mem_append.mp hmem with h12 | h3
  · rcases List.mem_append.mp h12 with h1 | h2
    · exact procList_not_mem _ _ (fun st e => sync2Step_no_onCancel cp st e)
        false sync h1
    · revert h2
      split <;> simp
  · exact procList_not_mem _ _
      (fun st e => post2Step_no_onCancel cp ret.onClose st e) _ post h3

theorem safeRun2_no_onClose_of_missing (cp : Bool)
    (sync : List (SyncEvent S F D)) (ret : Body2Return)
    (post : List (PostEvent S F D)) (h : ret.onClose = false) :
    GuardEff.onClose ∉ safeRun2Model cp sync ret post := by
  simp only [safeRun2Model, h, Bool.and_false]
  intro hmem
  rcases List.mem_append.mp hmem with h12 | h3
  · rcases List.mem_append.mp h12 with h1 | h2
    · exact procList_not_mem _ _ (fun st e => sync2Step_no_onClose cp st e)
        false sync h1
    · simp at h2
  · exact procList_not_mem _ _
      (fun st e => post2Step_no_onClose cp _ st e) _ post h3

theorem safeRun2_sync_closed_noop (cp : Bool)
    (sync : List (SyncEvent S F D)) (ret : Body2Return)
    (post : List (PostEvent S F D)) (h : sync2Closed cp sync = true) :
    safeRun2Model cp sync ret post = safeRun2Model cp sync ret []
    ∧ GuardEff.onCancel ∉ safeRun2Model cp sync ret post
    ∧ countOnClose (safeRun2Model cp sync ret post) =
        (if ret.onClose then 1 else 0) := by
  simp only [sync2Closed] at h
  simp only [safeRun2Model, h, Bool.not_true, Bool.and_false,
    Bool.true_and]
  rw [procList_absorbed _ (post2Step_absorb cp false ret.onClose) post]
  refine ⟨by simp [procList], ?_, ?_⟩
  · intro hmem
    rcases List.mem_append.mp hmem with h12 | h3
    · rcases List.mem_append.mp h12 with h1 | h2
      · exact procList_not_mem _ _
          (fun st e => sync2Step_no_onCancel cp st e) false sync h1
      · revert h2
        split <;> simp
    · simp at h3
  · rw [countOnClose_append, countOnClose_append]
    rw [show countOnClose (procList (sync2Step cp) false sync).2 = 0 from by
      simp only [countOnClose]
      rw [procList_filter_nil _ _ sync
        (fun e _ st => sync2Step_onClose_filter cp st e) false]
      rfl]
    cases hc : ret.onClose <;> simp [countOnClose, isOnCloseEff]

theorem safeRun_sync_closed_noop (sync : List (SRSyncEvent S F))
    (ret : CompReturn) (post : List (SRPostEvent S F))
    (h : srSyncClosed D sync = true) :
    safeRunModel (D := D) sync ret post = safeRunModel sync ret []
    ∧ GuardEff.onCancel ∉ safeRunModel (D := D) sync ret post
    ∧ countOnClose (safeRunModel (D := D) sync ret post) =
        (if srOnCloseActive ret then 1 else 0) := by
  simp only [srSyncClosed] at h
  simp only [safeRunModel, h, Bool.not_true, Bool.and_false,
    Bool.true_and]
  rw [procList_absorbed _ (srPostStep_absorb false (srOnCloseActive ret))
    post]
  refine ⟨by simp [procList], ?_, ?_⟩
  · intro hmem
    rcases List.mem_append.mp hmem with h12 | h3
    · rcases List.mem_append.mp h12 with h1 | h2
      · exact procList_not_mem _ _
          (fun st e => srSyncStep_no_onCancel st e) false sync h1
      · revert h2
        split <;> simp
    · simp at h3
  · rw [countOnClose_append, countOnClose_append]
    rw [show countOnClose (procList (srSyncStep (D := D)) false sync).2 = 0
      from by
      simp only [countOnClose]
      rw [procList_filter_nil _ _ sync
        (fun e _ st => srSyncStep_onClose_filter st e) false]
      rfl]
    cases hc : srOnCloseActive ret <;> simp [countOnClose, isOnCloseEff]

/-- C7: in the settlement guard, when the body's return value is a record,
`onCancel` and `onClose` are taken from it, each missing field defaulting to
a no-op (`safeRun2` lines 97-98, `safeRun` lines 53-61, where a plain
function return is treated as the cancel operation); and when the body
settles synchronously before returning, the just-obtained cancel handle is
discarded, `onClose` runs exactly once (when supplied), and the returned
cancellation handle is a no-op — feeding it any further events changes
nothing (`safeRun2` lines 99-102, `safeRun` lines 63-66). -/
theorem guard_return_normalization (S F D : Type) :
    (∀ (cp : Bool) (sync : List (SyncEvent S F D)) (ret : Body2Return)
        (post : List (PostEvent S F D)), ret.onCancel = false →
      GuardEff.onCancel ∉ safeRun2Model cp sync ret post)
    ∧ (∀ (cp : Bool) (sync : List (SyncEvent S F D)) (ret : Body2Return)
        (post : List (PostEvent S F D)), ret.onClose = false →
      GuardEff.onClose ∉ safeRun2Model cp sync ret post)
    ∧ (∀ cp : Bool, safeRun2Model (S := S) (F := F) (D := D) cp []
        ⟨true, true⟩ [.cancel] = [.onCancel, .onClose])
    ∧ (∀ cp : Bool, safeRun2Model (S := S) (F := F) (D := D) cp []
        ⟨false, true⟩ [.cancel] = [.onClose])
    ∧ (∀ cp : Bool, safeRun2Model (S := S) (F := F) (D := D) cp []
        ⟨true, false⟩ [.cancel] = [.onCancel])
    ∧ (∀ (cp : Bool) (sync : List (SyncEvent S F D)) (ret : Body2Return)
        (post : List (PostEvent S F D)), sync2Closed cp sync = true →
      safeRun2Model cp sync ret post = safeRun2Model cp sync ret []
      ∧ GuardEff.onCancel ∉ safeRun2Model cp sync ret post
      ∧ countOnClose (safeRun2Model cp sync ret post) =
          (if ret.onClose then 1 else 0))
    ∧ safeRunModel (S := S) (F := F) (D := D) [] (.record true) [.cancel] =
        [.onCancel, .onClose]
    ∧ safeRunModel (S := S) (F := F) (D := D) [] (.record false) [.cancel] =
        [.onClose]
    ∧ safeRunModel (S := S) (F := F) (D := D) [] .fn [.cancel] =
        [.onCancel]
    ∧ (∀ (sync : List (SRSyncEvent S F)) (ret : CompReturn)
        (post : List (SRPostEvent S F)), srSyncClosed D sync = true →
      safeRunModel (D := D) sync ret post = safeRunModel sync ret []
      ∧ GuardEff.onCancel ∉ safeRunModel (D := D) sync ret post
      ∧ countOnClose (safeRunModel (D := D) sync ret post) =
          (if srOnCloseActive ret then 1 else 0)) :=
  ⟨fun cp sync ret post h =>
      safeRun2_no_onCancel_of_missing cp sync ret post h,
    fun cp sync ret post h =>
      safeRun2_no_onClose_of_missing cp sync ret post h,
    fun cp => rfl, fun cp => rfl, fun cp => rfl,
    fun cp sync ret post h => safeRun2_sync_closed_noop cp sync ret post h,
    rfl, rfl, rfl,
    fun sync ret post h => safeRun_sync_closed_noop sync ret post h⟩

/-- Witness for C7: a record with no `onCancel` field never has an
`onCancel` invocation in its trace, and an instance that settles
synchronously ignores later events, runs `onClose` once, and never invokes
`onCancel`. -/
theorem guard_return_normalization_witness :
    GuardEff.onCancel ∉ safeRun2Model (S := Nat) (F := Nat) (D := Nat) true
        [] ⟨false, true⟩ [.cancel]
    ∧ (safeRun2Model (S := Nat) (F := Nat) (D := Nat) true [.succeed 4]
          ⟨true, true⟩ [.cancel, .succeed 9] =
        safeRun2Model true [.succeed 4] ⟨true, true⟩ []
      ∧ GuardEff.onCancel ∉ safeRun2Model (S := Nat) (F := Nat) (D := Nat)
          true [.succeed 4] ⟨true, true⟩ [.cancel, .succeed 9]
      ∧ countOnClose (safeRun2Model (S := Nat) (F := Nat) (D := Nat) true
          [.succeed 4] ⟨true, true⟩ [.cancel, .succeed 9]) =
          (if (Body2Return.mk true true).onClose then 1 else 0))
    ∧ (safeRunModel (S := Nat) (F := Nat) (D := Nat) [.succeed 4]
          (.record true) [.cancel] =
        safeRunModel [.succeed 4] (.record true) []
      ∧ GuardEff.onCancel ∉ safeRunModel (S := Nat) (F := Nat) (D := Nat)
          [.succeed 4] (.record true) [.cancel]
      ∧ countOnClose (safeRunModel (S := Nat) (F := Nat) (D := Nat)
          [.succeed 4] (.record true) [.cancel]) =
          (if srOnCloseActive (.record true) then 1 else 0)) :=
  ⟨(guard_return_normalization Nat Nat Nat).1 true [] ⟨false, true⟩
      [.cancel] rfl,
    (guard_return_normalization Nat Nat Nat).2.2.2.2.2.1 true [.succeed 4]
      ⟨true, true⟩ [.cancel, .succeed 9] (by decide),
    (guard_return_normalization Nat Nat Nat).2.2.2.2.2.2.2.2.2 [.succeed 4]
      (.record true) [.cancel] (by decide)⟩

/-! ## Handler normalization: missing failure handler and the defect
channel -/

/-- C8: `Task.run` (lines 188-193) given a bare success callback, or a
handler record with no `failure` field, installs the default failure handler
(lines 17-23) on the failure channel, and that handler never consumes a
domain failure silently: it always throws an `Error` wrapping the failure
value (the failure itself when it is an `Error`, otherwise a new `Error`
built from its string rendering). -/
theorem run_missing_failure_throws (h : HandlerFn) (s c : Option HandlerFn)
    (v : JSVal) :
    (normalizeHandlers (.fn h)).failure = HandlerFn.defaultFailure
    ∧ (normalizeHandlers (.record s none c)).failure =
        HandlerFn.defaultFailure
    ∧ applyFailure HandlerFn.defaultFailure v ≠ HandlerOutcome.returned
    ∧ (∃ m, applyFailure HandlerFn.defaultFailure v =
        .thrown (.errorV m))
    ∧ (∀ m, v = .errorV m →
        applyFailure HandlerFn.defaultFailure v = .thrown (.errorV m))
    ∧ (∀ s' : String, v = .strV s' →
        applyFailure HandlerFn.defaultFailure v =
          .thrown (.errorV (jsToString v))) := by
  refine ⟨rfl, rfl, ?_, ?_, ?_, ?_⟩
  · cases v <;> simp [applyFailure, defaultFailureHandler]
  · cases v <;> exact ⟨_, rfl⟩
  · rintro m rfl
    rfl
  · rintro s' rfl
    rfl

/-- C10: `Map._run` (lines 334-341) and `MapRejected._run` (lines 354-361)
pass only success and failure handlers to the child task's `run`, so even
when the outer handler set carries a `catch` handler, the normalized handler
record the child receives has no `catch` field: the defect channel is
dropped at this node, and a synchronous throw from a `Chain` continuation
below (lines 379-387) propagates synchronously instead of being routed to
the outer `catch` handler. -/
theorem map_drops_defect_channel (h : HandlersRec) (c : HandlerFn)
    (E : Type) (e : E) (hc : h.catch_ = some c) :
    (normalizeHandlers (mapChildHandlers h)).catch_ = none
    ∧ (normalizeHandlers (mapRejectedChildHandlers h)).catch_ = none
    ∧ chainOnFirstSuccess
        (normalizeHandlers (mapChildHandlers h)).catch_ (some e) =
        .propagated e
    ∧ chainOnFirstSuccess
        (normalizeHandlers (mapRejectedChildHandlers h)).catch_ (some e) =
        .propagated e
    ∧ chainOnFirstSuccess h.catch_ (some e) = ChainFnResult.caught e :=
  ⟨rfl, rfl, rfl, rfl, by rw [hc]; rfl⟩

/-- Witness for C10 at a concrete handler record with a `catch` handler. -/
theorem map_drops_defect_channel_witness :
    (normalizeHandlers (mapChildHandlers
        ⟨.user 0, .user 1, some (.user 2)⟩)).catch_ = none
    ∧ chainOnFirstSuccess (normalizeHandlers (mapChildHandlers
        ⟨.user 0, .user 1, some (.user 2)⟩)).catch_ (some 3) =
        ChainFnResult.propagated 3 :=
  ⟨(map_drops_defect_channel ⟨.user 0, .user 1, some (.user 2)⟩ (.user 2)
      Nat 3 rfl).1,
    (map_drops_defect_channel ⟨.user 0, .user 1, some (.user 2)⟩ (.user 2)
      Nat 3 rfl).2.2.1⟩

/-- Witness for C8: a missing failure handler turns a string domain failure
into a thrown `Error` and rethrows an `Error` failure as-is. -/
theorem run_missing_failure_throws_witness :
    applyFailure HandlerFn.defaultFailure (.errorV "boom") =
      .thrown (.errorV "boom")
    ∧ applyFailure HandlerFn.defaultFailure (.strV "oops") =
      .thrown (.errorV (jsToString (.strV "oops"))) :=
  ⟨(run_missing_failure_throws (.user 0) none none
      (.errorV "boom")).2.2.2.2.1 "boom" rfl,
    (run_missing_failure_throws (.user 0) none none
      (.strV "oops")).2.2.2.2.2 "oops" rfl⟩

/-! ## Chain sequencing -/

theorem chainProc_closed_noFirst (l : List (ChainEvent S T F))
    (st : ChainState) (hcl : st.closed = true)
    (hl : ∀ e ∈ l, isFirstEvent e = false) :
    procList chainStep st l = (st, []) := by
  induction l with
  | nil => rfl
  | cons e rest ih =>
    have hstep : chainStep st e = (st, []) := by
      cases e with
      | first r =>
        exact absurd (hl _ (List.mem_cons_self _ _)) (by simp [isFirstEvent])
      | second r => cases r <;> simp [chainStep, hcl]
      | cancel => simp [chainStep, hcl]
    simp [procList, hstep,
      ih (fun e' he' => hl e' (List.mem_cons_of_mem e he'))]

/-- C6: running `Chain(task, fn)` (lines 374-393) runs `task`; on its
success with value `x` the continuation's task is run and its settlement is
forwarded straight through to the original outer handlers; on its failure
the error is forwarded directly to the outer failure handler without the
continuation ever being run; and the combined cancellation handle invokes
the first task's cancel handle and — exactly when the second task has
already been produced — the second task's, covering a cancellation racing
with the transition between the two sub-tasks. -/
theorem chain_sequencing (S T F : Type) :
    (∀ (x : S) (y : T), chainRun (F := F)
        [.first (.inl x), .second (.inl y)] = [.runSecond x, .success y])
    ∧ (∀ (x : S) (e : F), chainRun (T := T)
        [.first (.inl x), .second (.inr e)] = [.runSecond x, .failure e])
    ∧ (∀ (e : F) (rest : List (ChainEvent S T F)),
        (∀ ev ∈ rest, isFirstEvent ev = false) →
        chainRun (.first (.inr e) :: rest) = [.failure e])
    ∧ (∀ (e : F) (rest : List (ChainEvent S T F)) (x : S),
        (∀ ev ∈ rest, isFirstEvent ev = false) →
        ChainEff.runSecond x ∉ chainRun (.first (.inr e) :: rest))
    ∧ (∀ rest : List (ChainEvent S T F),
        (∀ ev ∈ rest, isFirstEvent ev = false) →
        chainRun (.cancel :: rest) = [.cancelFirst])
    ∧ (∀ x : S, chainRun (T := T) (F := F) [.first (.inl x), .cancel] =
        [.runSecond x, .cancelFirst, .cancelSecond]) := by
  refine ⟨fun x y => rfl, fun x e => rfl, ?_, ?_, ?_, fun x => rfl⟩
  · intro e rest hrest
    simp only [chainRun, procList, chainStep]
    rw [chainProc_closed_noFirst rest _ rfl hrest]
    rfl
  · intro e rest x hrest
    simp only [chainRun, procList, chainStep]
    rw [chainProc_closed_noFirst rest _ rfl hrest]
    simp
  · intro rest hrest
    simp only [chainRun, procList, chainStep]
    rw [chainProc_closed_noFirst rest _ rfl hrest]
    rfl

/-- Witness for C6: failure of the first task is forwarded while later
events are absorbed, and cancelling before the first settlement only
invokes the first task's handle. -/
theorem chain_sequencing_witness :
    chainRun (S := Nat) (T := Nat) (F := Nat)
        (.first (.inr 7) :: [.cancel]) = [.failure 7]
    ∧ ChainEff.runSecond 3 ∉ chainRun (S := Nat) (T := Nat) (F := Nat)
        (.first (.inr 7) :: [.second (.inl 1)])
    ∧ chainRun (S := Nat) (T := Nat) (F := Nat)
        (.cancel :: [.second (.inl 1)]) = [.cancelFirst] :=
  ⟨(chain_sequencing Nat Nat Nat).2.2.1 7 [.cancel] (by decide),
    (chain_sequencing Nat Nat Nat).2.2.2.1 7 [.second (.inl 1)] 3
      (by decide),
    (chain_sequencing Nat Nat Nat).2.2.2.2.1 [.second (.inl 1)]
      (by decide)⟩

/-! ## Race and All -/

theorem raceStep_absorb (n : Nat) (e : FanEvent S F) :
    raceStep n true e = (true, ([] : List (RaceEff S F))) := by
  cases e with
  | settle i r => cases r <;> rfl
  | cancel => rfl

theorem raceProc_zero_cancels (evs : List (FanEvent S F)) (st : Bool)
    (h : ∀ e ∈ evs, e = FanEvent.cancel) :
    (procList (raceStep 0) st evs).2 = ([] : List (RaceEff S F)) := by
  induction evs generalizing st with
  | nil => rfl
  | cons e rest ih =>
    have he := h e (List.mem_cons_self e rest)
    subst he
    have hstep : raceStep (S := S) (F := F) 0 st .cancel =
        (true, []) := by
      cases st <;> simp [raceStep, raceCancelEffs]
    simp [procList, hstep,
      ih true (fun e' he' => h e' (List.mem_cons_of_mem _ he'))]

/-- C5: running `Race` (lines 313-319) settles with the outcome of
whichever sub-task settles first, success or failure alike; all later
settlements from other sub-tasks are absorbed as no-ops; immediately after
the winning settlement every sub-task's accumulated cancel handle is
invoked by the guard's `onClose` (line 317); and a `Race` over an empty
task list never settles, while its cancellation handle remains safe to
call (it produces no effect at all). -/
theorem race_first_settlement_wins (S F : Type) :
    (∀ (n i : Nat) (x : S) (rest : List (FanEvent S F)),
      raceRun n (.settle i (.inl x) :: rest) =
        (List.range n).map .start ++ .success x :: raceCancelEffs n)
    ∧ (∀ (n i : Nat) (e : F) (rest : List (FanEvent S F)),
      raceRun (S := S) n (.settle i (.inr e) :: rest) =
        (List.range n).map .start ++ .failure e :: raceCancelEffs n)
    ∧ (∀ (n i : Nat) (r : S ⊕ F) (rest : List (FanEvent S F)) (j : Nat),
      j < n → RaceEff.cancelSub j ∈ raceRun n (.settle i r :: rest))
    ∧ (∀ evs : List (FanEvent S F),
      (∀ e ∈ evs, e = FanEvent.cancel) → raceRun 0 evs = []) := by
  have hwin : ∀ (n i : Nat) (r : S ⊕ F) (rest : List (FanEvent S F)),
      raceRun n (.settle i r :: rest) =
        (List.range n).map .start ++
          (match r with
            | .inl x => RaceEff.success x
            | .inr e => RaceEff.failure e) :: raceCancelEffs n := by
    intro n i r rest
    cases r <;>
      simp [raceRun, procList, raceStep,
        procList_absorbed _ (raceStep_absorb n) rest]
  refine ⟨fun n i x rest => hwin n i (.inl x) rest,
    fun n i e rest => hwin n i (.inr e) rest, ?_, ?_⟩
  · intro n i r rest j hj
    rw [hwin n i r rest]
    refine List.mem_append.mpr (Or.inr ?_)
    refine List.mem_cons_of_mem _ ?_
    simp only [raceCancelEffs]
    exact List.mem_map.mpr ⟨j, List.mem_range.mpr hj, rfl⟩
  · intro evs h
    simp [raceRun, raceProc_zero_cancels evs false h]

/-- Witness for C5: the first settlement wins and the loser's handle is
cancelled; an empty race fed only user cancellations produces nothing. -/
theorem race_first_settlement_wins_witness :
    RaceEff.cancelSub 1 ∈ raceRun (S := Nat) (F := Nat) 2
        (.settle 0 (.inl 5) :: [.settle 1 (.inr 9)])
    ∧ raceRun (S := Nat) (F := Nat) 0 [.cancel, .cancel] = [] :=
  ⟨(race_first_settlement_wins Nat Nat).2.2.1 2 0 (.inl 5)
      [.settle 1 (.inr 9)] 1 (by decide),
    (race_first_settlement_wins Nat Nat).2.2.2 [.cancel, .cancel]
      (by decide)⟩

theorem allProc_zero_cancels (evs : List (FanEvent S F))
    (st : AllState S) (h : ∀ e ∈ evs, e = FanEvent.cancel) :
    (procList (allStep 0) st evs).2 = ([] : List (AllEff S F)) := by
  induction evs generalizing st with
  | nil => rfl
  | cons e rest ih =>
    have he := h e (List.mem_cons_self e rest)
    subst he
    have hstep : (allStep (F := F) 0 st .cancel).2 = [] := by
      rcases hcl : st.closed with _ | _ <;>
        simp [allStep, hcl, cancelAllEffs]
    simp only [procList, List.append_eq]
    rw [hstep, ih _ (fun e' he' => h e' (List.mem_cons_of_mem _ he'))]
    rfl

/-- C2 (amended): running `All` on an empty task list (lines 282-300) never
settles: with zero sub-tasks the inner success callback is never invoked,
so the `completedCount === length` check never runs and neither outer
handler ever fires; no sub-task is started, and the cancellation handle is
safe — the whole observable trace is empty however often it is invoked. -/
theorem all_empty_never_settles (S F : Type) (evs : List (FanEvent S F))
    (h : ∀ e ∈ evs, e = FanEvent.cancel) :
    allRun 0 evs = [] := by
  simp [allRun, allProc_zero_cancels evs _ h]

/-- Counterexample for C2 as stated: running `All` on the empty task list
produces no effect at all — in particular the success handler is never
called with the empty sequence, so the execution does not settle. -/
theorem all_empty_counterexample :
    allRun (S := Unit) (F := Unit) 0 [] = []
    ∧ AllEff.success [] ∉ allRun (S := Unit) (F := Unit) 0 [] := by
  refine ⟨rfl, ?_⟩
  rw [(all_empty_never_settles Unit Unit [] (by simp) : _)]
  simp

/-- Witness for the amended C2: the empty `All` absorbs a user
cancellation without any observable effect. -/
theorem all_empty_never_settles_witness :
    allRun (S := Nat) (F := Nat) 0 [.cancel] = [] :=
  all_empty_never_settles Nat Nat [.cancel] (by decide)

theorem foldlSet_length (evs : List (Nat × S)) (vals : List (Option S)) :
    (evs.foldl (fun v p => v.set p.1 (some p.2)) vals).length =
      vals.length := by
  induction evs generalizing vals with
  | nil => rfl
  | cons p rest ih => simp [List.foldl_cons, ih, List.length_set]

theorem foldlSet_getElem?_not_mem (evs : List (Nat × S)) (j : Nat)
    (h : j ∉ evs.map Prod.fst) (vals : List (Option S)) :
    (evs.foldl (fun v p => v.set p.1 (some p.2)) vals)[j]? = vals[j]? := by
  induction evs generalizing vals with
  | nil => rfl
  | cons p rest ih =>
    simp only [List.map_cons, List.mem_cons] at h
    push_neg at h
    rw [List.foldl_cons, ih h.2, List.getElem?_set_ne (Ne.symm h.1)]

theorem foldlSet_getElem?_mem (evs : List (Nat × S)) (j : Nat) (x : S)
    (hnd : (evs.map Prod.fst).Nodup) (hmem : (j, x) ∈ evs)
    (vals : List (Option S)) (hj : j < vals.length) :
    (evs.foldl (fun v p => v.set p.1 (some p.2)) vals)[j]? =
      some (some x) := by
  induction evs generalizing vals with
  | nil => simp at hmem
  | cons p rest ih =>
    simp only [List.map_cons, List.nodup_cons] at hnd
    rcases List.mem_cons.mp hmem with heq | htail
    · have heq' : p = (j, x) := heq.symm
      subst heq'
      rw [List.foldl_cons, foldlSet_getElem?_not_mem rest j hnd.1 _]
      exact List.getElem?_set_eq_of_lt _ (by simpa using hj)
    · rw [List.foldl_cons]
      exact ih hnd.2 htail _ (by simpa [List.length_set] using hj)

theorem procList_cons {σ ε α : Type} (step : σ → α → σ × List ε)
    (st : σ) (e : α) (l : List α) :
    procList step st (e :: l) =
      ((procList step (step st e).1 l).1,
        (step st e).2 ++ (procList step (step st e).1 l).2) := rfl

theorem allStep_inl_open_lt (n : Nat) (vals : List (Option S)) (c : Nat)
    (b : Bool) (i : Nat) (x : S) (hc : ¬(c + 1 = n)) :
    allStep (F := F) n ⟨vals, c, b⟩ (.settle i (.inl x)) =
      (⟨vals.set i (some x), c + 1, b⟩, []) := by
  simp [allStep, hc]

theorem allStep_inl_final (n : Nat) (vals : List (Option S)) (c : Nat)
    (i : Nat) (x : S) (hc : c + 1 = n) :
    allStep (F := F) n ⟨vals, c, false⟩ (.settle i (.inl x)) =
      (⟨vals.set i (some x), c + 1, true⟩,
        .success (vals.set i (some x)) :: cancelAllEffs n) := by
  simp [allStep, hc]

theorem allProc_all_success (n : Nat) (evs : List (Nat × S))
    (vals : List (Option S)) (c : Nat) (hlen : c + evs.length = n)
    (hne : evs ≠ []) :
    procList (allStep (F := F) n) ⟨vals, c, false⟩
        (evs.map (fun p => .settle p.1 (.inl p.2))) =
      (⟨evs.foldl (fun v p => v.set p.1 (some p.2)) vals, n, true⟩,
        .success (evs.foldl (fun v p => v.set p.1 (some p.2)) vals) ::
          cancelAllEffs n) := by
  induction evs generalizing vals c with
  | nil => exact absurd rfl hne
  | cons p rest ih =>
    rcases rest with _ | ⟨q, rest'⟩
    · simp only [List.length_cons, List.length_nil, Nat.zero_add] at hlen
      rw [List.map_cons, List.map_nil, procList_cons,
        allStep_inl_final n vals c p.1 p.2 hlen]
      simp [procList, List.foldl_cons, hlen]
    · have hlen' : (c + 1) + (q :: rest').length = n := by
        simp only [List.length_cons] at hlen ⊢
        omega
      have hlt : ¬(c + 1 = n) := by
        simp only [List.length_cons] at hlen
        omega
      rw [List.map_cons, procList_cons,
        allStep_inl_open_lt n vals c false p.1 p.2 hlt]
      rw [ih _ _ hlen' (by simp)]
      simp [List.foldl_cons]

theorem allRun_all_success (n : Nat) (f : Nat → S) (evs : List (Nat × S))
    (hn : 0 < n)
    (hperm : List.Perm evs ((List.range n).map (fun j => (j, f j)))) :
    allRun (F := F) n (evs.map (fun p => .settle p.1 (.inl p.2))) =
      (List.range n).map .start ++
        .success ((List.range n).map (fun j => some (f j))) ::
          cancelAllEffs n := by
  have hlen : evs.length = n := by simpa using hperm.length_eq
  have hne : evs ≠ [] := by
    intro hcontra
    rw [hcontra] at hlen
    simp at hlen
    omega
  have hnd : (evs.map Prod.fst).Nodup := by
    have hp := hperm.map Prod.fst
    have hcanon : ((List.range n).map (fun j => (j, f j))).map Prod.fst =
        List.range n := by
      rw [List.map_map]
      exact List.map_id _
    rw [hcanon] at hp
    exact hp.nodup_iff.mpr (List.nodup_range n)
  simp only [allRun]
  rw [allProc_all_success n evs _ 0 (by simp [hlen]) hne]
  have hvals : evs.foldl (fun v p => v.set p.1 (some p.2))
      (List.replicate n none) =
      (List.range n).map (fun j => some (f j)) := by
    apply List.ext_getElem?
    intro j
    by_cases hj : j < n
    · rw [foldlSet_getElem?_mem evs j (f j) hnd
        (hperm.mem_iff.mpr
          (List.mem_map.mpr ⟨j, List.mem_range.mpr hj, rfl⟩))
        _ (by simpa using hj)]
      rw [List.getElem?_map]
      rw [List.getElem?_range hj]
      rfl
    · rw [List.getElem?_eq_none, List.getElem?_eq_none]
      · simpa using Nat.le_of_not_lt hj
      · rw [foldlSet_length]
        simpa using Nat.le_of_not_lt hj
  rw [hvals]

theorem allProc_prefix_inl (n : Nat) (pre : List (Nat × S))
    (vals : List (Option S)) (c : Nat) (hlen : c + pre.length < n) :
    procList (allStep (F := F) n) ⟨vals, c, false⟩
        (pre.map (fun p => .settle p.1 (.inl p.2))) =
      (⟨pre.foldl (fun v p => v.set p.1 (some p.2)) vals,
        c + pre.length, false⟩, []) := by
  induction pre generalizing vals c with
  | nil => simp [procList]
  | cons p rest ih =>
    have hlt : ¬(c + 1 = n) := by
      simp only [List.length_cons] at hlen
      omega
    have hlen' : (c + 1) + rest.length < n := by
      simp only [List.length_cons] at hlen
      omega
    rw [List.map_cons, procList_cons,
      allStep_inl_open_lt n vals c false p.1 p.2 hlt]
    rw [ih _ _ hlen']
    have harith : c + 1 + rest.length = c + (rest.length + 1) := by omega
    simp [List.foldl_cons, List.length_cons, harith]

theorem allStep_closed_silent (n : Nat) (st : AllState S)
    (e : FanEvent S F) (h : st.closed = true) :
    (allStep n st e).2 = [] ∧ ((allStep n st e).1).closed = true := by
  cases e with
  | settle i r =>
    cases r with
    | inl x =>
      by_cases hc : st.completedCount + 1 = n <;> simp [allStep, hc, h]
    | inr e2 => simp [allStep, h]
  | cancel => simp [allStep, h]

theorem allProc_closed_silent (n : Nat) (l : List (FanEvent S F)) :
    ∀ st : AllState S, st.closed = true →
      (procList (allStep n) st l).2 = [] := by
  induction l with
  | nil => intro st h; rfl
  | cons e rest ih =>
    intro st h
    obtain ⟨h1, h2⟩ := allStep_closed_silent n st e h
    rw [procList_cons, h1, ih _ h2]
    rfl

theorem allStep_inr_open (n : Nat) (st : AllState S) (i : Nat) (e : F)
    (h : st.closed = false) :
    allStep n st (.settle i (.inr e)) =
      ({st with closed := true}, .failure e :: cancelAllEffs n) := by
  simp [allStep, h]

theorem allRun_first_failure (n : Nat) (pre : List (Nat × S)) (i : Nat)
    (e : F) (rest : List (FanEvent S F)) (hlen : pre.length < n) :
    allRun n (pre.map (fun p => .settle p.1 (.inl p.2)) ++
        .settle i (.inr e) :: rest) =
      (List.range n).map .start ++ .failure e :: cancelAllEffs n := by
  simp only [allRun]
  rw [procList_append]
  rw [allProc_prefix_inl n pre _ 0 (by simpa using hlen)]
  rw [procList_cons, allStep_inr_open n _ i e rfl]
  rw [allProc_closed_silent n rest _ rfl]
  simp

theorem allStep_inl_count (n : Nat) (st : AllState S) (i : Nat) (x : S) :
    ((allStep (F := F) n st (.settle i (.inl x))).1).completedCount =
      st.completedCount + 1 := by
  by_cases hc : st.completedCount + 1 = n <;>
    rcases hcl : st.closed with _ | _ <;> simp [allStep, hc, hcl]

theorem allStep_inr_count (n : Nat) (st : AllState S) (i : Nat) (e : F) :
    ((allStep n st (.settle i (.inr e))).1).completedCount =
      st.completedCount := by
  rcases hcl : st.closed with _ | _ <;> simp [allStep, hcl]

theorem allStep_cancel_count (n : Nat) (st : AllState S) :
    ((allStep (S := S) (F := F) n st .cancel).1).completedCount =
      st.completedCount := by
  rcases hcl : st.closed with _ | _ <;> simp [allStep, hcl]

theorem allProc_success_count (n : Nat) (evs : List (FanEvent S F)) :
    ∀ (st : AllState S) (vs : List (Option S)),
      AllEff.success vs ∈ (procList (allStep n) st evs).2 →
      n ≤ st.completedCount + (inlIndices evs).length := by
  induction evs with
  | nil =>
    intro st vs h
    simp [procList] at h
  | cons e rest ih =>
    intro st vs h
    rw [procList_cons] at h
    rcases List.mem_append.mp h with hstep | hrest
    · cases e with
      | settle i r =>
        cases r with
        | inl x =>
          by_cases hc : st.completedCount + 1 = n
          · have : (inlIndices (FanEvent.settle i (Sum.inl x) :: rest)) =
                i :: inlIndices rest := rfl
            rw [this, List.length_cons]
            omega
          · rw [show (allStep (F := F) n st (.settle i (.inl x))).2 = []
                from by simp [allStep, hc]] at hstep
            simp at hstep
        | inr e2 =>
          rcases hcl : st.closed with _ | _ <;>
            simp [allStep, hcl, cancelAllEffs] at hstep
      | cancel =>
        rcases hcl : st.closed with _ | _ <;>
          simp [allStep, hcl, cancelAllEffs] at hstep
    · cases e with
      | settle i r =>
        cases r with
        | inl x =>
          have hb := ih _ vs hrest
          rw [allStep_inl_count] at hb
          have : (inlIndices (FanEvent.settle i (Sum.inl x) :: rest)) =
              i :: inlIndices rest := rfl
          rw [this, List.length_cons]
          omega
        | inr e2 =>
          have hb := ih _ vs hrest
          rw [allStep_inr_count] at hb
          exact hb
      | cancel =>
        have hb := ih _ vs hrest
        rw [allStep_cancel_count] at hb
        exact hb

theorem inlIndices_mem (evs : List (FanEvent S F)) (j : Nat)
    (h : j ∈ inlIndices evs) :
    ∃ x, FanEvent.settle j (Sum.inl x) ∈ evs := by
  induction evs with
  | nil => simp [inlIndices] at h
  | cons e rest ih =>
    cases e with
    | settle i r =>
      cases r with
      | inl x =>
        rcases List.mem_cons.mp
            (show j ∈ i :: inlIndices rest from h) with heq | htail
        · subst heq
          exact ⟨x, List.mem_cons_self _ _⟩
        · obtain ⟨x', hx'⟩ := ih htail
          exact ⟨x', List.mem_cons_of_mem _ hx'⟩
      | inr e2 =>
        obtain ⟨x', hx'⟩ := ih h
        exact ⟨x', List.mem_cons_of_mem _ hx'⟩
    | cancel =>
      obtain ⟨x', hx'⟩ := ih h
      exact ⟨x', List.mem_cons_of_mem _ hx'⟩

theorem allRun_success_requires_all (n : Nat) (evs : List (FanEvent S F))
    (vs : List (Option S)) (hnd : (inlIndices evs).Nodup)
    (hlt : ∀ i ∈ inlIndices evs, i < n)
    (hmem : AllEff.success vs ∈ allRun n evs) :
    ∀ j, j < n → ∃ x, FanEvent.settle j (Sum.inl x) ∈ evs := by
  have hproc : AllEff.success vs ∈
      (procList (allStep n) ⟨List.replicate n none, 0, false⟩ evs).2 := by
    rcases List.mem_append.mp hmem with hstart | hp
    · exact absurd hstart (by simp)
    · exact hp
  have hcount := allProc_success_count n evs _ vs hproc
  have hlen : n ≤ (inlIndices evs).length := by simpa using hcount
  have hset : (inlIndices evs).toFinset = Finset.range n := by
    apply Finset.eq_of_subset_of_card_le
    · intro a ha
      simp only [List.mem_toFinset] at ha
      exact Finset.mem_range.mpr (hlt a ha)
    · rw [List.toFinset_card_of_nodup hnd, Finset.card_range]
      exact hlen
  intro j hj
  have hjmem : j ∈ inlIndices evs := by
    rw [← List.mem_toFinset, hset]
    exact Finset.mem_range.mpr hj
  exact inlIndices_mem evs j hjmem

/-- C4: for a non-empty task list, `All` (lines 282-300) succeeds only when
every sub-task has succeeded, and then the result sequence holds each
sub-task's value at that sub-task's input index — the order matches the
input task order whatever order the sub-tasks settle in (first conjunct,
quantified over every permutation of the settlement order; third conjunct,
a success delivery requires a success settlement from every index); and on
the first sub-task failure the outer failure handler is called immediately
with that error, followed by the cancellation of all the accumulated
sub-task cancel handles (second conjunct, with arbitrary later events
absorbed). -/
theorem all_join_behavior (S F : Type) :
    (∀ (n : Nat) (f : Nat → S) (evs : List (Nat × S)), 0 < n →
      List.Perm evs ((List.range n).map (fun j => (j, f j))) →
      allRun (F := F) n (evs.map (fun p => .settle p.1 (.inl p.2))) =
        (List.range n).map .start ++
          .success ((List.range n).map (fun j => some (f j))) ::
            cancelAllEffs n)
    ∧ (∀ (n : Nat) (pre : List (Nat × S)) (i : Nat) (e : F)
        (rest : List (FanEvent S F)), pre.length < n →
      allRun n (pre.map (fun p => .settle p.1 (.inl p.2)) ++
          .settle i (.inr e) :: rest) =
        (List.range n).map .start ++ .failure e :: cancelAllEffs n)
    ∧ (∀ (n : Nat) (evs : List (FanEvent S F)) (vs : List (Option S)),
      (inlIndices evs).Nodup → (∀ i ∈ inlIndices evs, i < n) →
      AllEff.success vs ∈ allRun n evs →
      ∀ j, j < n → ∃ x, FanEvent.settle j (Sum.inl x) ∈ evs) :=
  ⟨fun n f evs hn hperm => allRun_all_success n f evs hn hperm,
    fun n pre i e rest hlen => allRun_first_failure n pre i e rest hlen,
    fun n evs vs hnd hlt hmem =>
      allRun_success_requires_all n evs vs hnd hlt hmem⟩

/-- Witness for C4: two sub-tasks settling in reverse order still produce
the results in input order; a failure after one success short-circuits with
the error and cancels every handle; and a delivered success implies every
index settled successfully. -/
theorem all_join_behavior_witness :
    allRun (S := Nat) (F := Nat) 2
        (([(1, 20), (0, 10)] : List (Nat × Nat)).map
          (fun p => .settle p.1 (.inl p.2))) =
      (List.range 2).map .start ++
        .success ((List.range 2).map (fun j => some (10 * j + 10))) ::
          cancelAllEffs 2
    ∧ allRun (S := Nat) (F := Nat) 2
        (([(0, 5)] : List (Nat × Nat)).map
            (fun p => .settle p.1 (.inl p.2)) ++
          .settle 1 (.inr 7) :: [.cancel]) =
      (List.range 2).map .start ++ .failure 7 :: cancelAllEffs 2
    ∧ (∀ j, j < 2 → ∃ x, FanEvent.settle j (Sum.inl x) ∈
        ([.settle 0 (.inl 1), .settle 1 (.inl 2)] :
          List (FanEvent Nat Nat))) :=
  ⟨(all_join_behavior Nat Nat).1 2 (fun j => 10 * j + 10) [(1, 20), (0, 10)]
      (by decide) (by decide),
    (all_join_behavior Nat Nat).2.1 2 [(0, 5)] 1 7 [.cancel] (by decide),
    (all_join_behavior Nat Nat).2.2 2 [.settle 0 (.inl 1), .settle 1 (.inl 2)]
      [some 1, some 2] (by decide) (by decide) (by decide)⟩
